import Mathlib

/-!
Verification of the expense-tracker ledger/netting engine against its
natural-language specification.

The TypeScript source is shallowly embedded:
- JS `number` money values are modelled as `ℚ` (exact rationals; the embedding
  tracks the arithmetic the code performs, not IEEE-754 rounding);
- timestamps (`Date`, `Date.now()`) are modelled as `Int` milliseconds, with
  the current time passed explicitly;
- Prisma rows are Lean structures, the database is a `Db` structure of lists,
  and each controller becomes a total function returning `Except` for the
  thrown `AppError`s;
- external collaborators (auth, zod validation, HTTP) are out of scope: the
  operations receive already-validated typed arguments.
-/

abbrev UserId := Nat

abbrev Time := Int

/-- JS `Math.round`: round half towards positive infinity, `⌊x + 1/2⌋`.
Uses `Rat.floor` so the definition is executable. -/
def jsRound (q : ℚ) : ℤ := (q + 1/2).floor

/-- `Math.round(x * 100) / 100` — round to 2 decimal places, as done throughout
`splitExpense.ts`. -/
def round2 (q : ℚ) : ℚ := ((jsRound (q * 100) : ℤ) : ℚ) / 100

theorem jsRound_eq_floor (q : ℚ) : jsRound q = ⌊q + 1/2⌋ := by
  rw [jsRound, Rat.floor_def, Rat.floor_def']

theorem jsRound_eq_of {q : ℚ} {z : ℤ} (h₁ : (z : ℚ) ≤ q + 1/2) (h₂ : q + 1/2 < z + 1) :
    jsRound q = z := by
  rw [jsRound_eq_floor]
  exact Int.floor_eq_iff.mpr ⟨h₁, h₂⟩

theorem jsRound_bound (q : ℚ) : |(jsRound q : ℚ) - q| ≤ 1/2 := by
  rw [jsRound_eq_floor, abs_le]
  constructor
  · have h := Int.lt_floor_add_one (q + 1/2)
    push_cast at h ⊢
    linarith
  · have h := Int.floor_le (q + 1/2)
    push_cast at h ⊢
    linarith

theorem round2_bound (q : ℚ) : |round2 q - q| ≤ 1/200 := by
  have h := jsRound_bound (q * 100)
  rw [round2, show ((jsRound (q * 100) : ℤ) : ℚ) / 100 - q
      = (((jsRound (q * 100) : ℤ) : ℚ) - q * 100) / 100 by ring, abs_div,
    abs_of_pos (by norm_num : (0:ℚ) < 100)]
  linarith

/-- One entry of the `customSplits` array of `CreateSplitExpenseSchema`. -/
structure CustomSplit where
  userId : UserId
  amount : ℚ
  percentage : Option ℚ
deriving DecidableEq, Repr

inductive SplitType
  | Equal
  | Percentage
  | Amount
deriving DecidableEq, Repr

/-- The `AppError`s thrown by the split-calculation part of
`createSplitExpense`. -/
inductive SplitError
  | customSumMismatch
  | nonMember
  | percentageSumMismatch
  | invalidSplitType
deriving DecidableEq, Repr

/-- The split-calculation block of `createSplitExpense`
(`src/server/src/controller/splitExpense.ts`, lines 210–257).
JS `reduce((sum, s) => sum + s.amount, 0)` is written as `List.sum` of the
mapped list (the same left-to-right sum, exact on `ℚ`). -/
def computeSplits (splitType : SplitType) (amount : ℚ) (activeMembers : List UserId)
    (customSplits : Option (List CustomSplit)) : Except SplitError (List (UserId × ℚ)) :=
  match splitType, customSplits with
  | SplitType.Equal, _ =>
      let splitAmount := amount / (activeMembers.length : ℚ)
      Except.ok (activeMembers.map fun m => (m, round2 splitAmount))
  | SplitType.Amount, some customs =>
      let totalCustomAmount := (customs.map CustomSplit.amount).sum
      if 1/100 < |totalCustomAmount - amount| then Except.error SplitError.customSumMismatch
      else if 0 < (customs.filter fun c => !(activeMembers.contains c.userId)).length then
        Except.error SplitError.nonMember
      else Except.ok (customs.map fun c => (c.userId, c.amount))
  | SplitType.Percentage, some customs =>
      let totalPercentage := (customs.map fun c => c.percentage.getD 0).sum
      if 1/100 < |totalPercentage - 100| then Except.error SplitError.percentageSumMismatch
      else if 0 < (customs.filter fun c => !(activeMembers.contains c.userId)).length then
        Except.error SplitError.nonMember
      else Except.ok (customs.map fun c => (c.userId, round2 (amount * c.percentage.getD 0 / 100)))
  | SplitType.Amount, none => Except.error SplitError.invalidSplitType
  | SplitType.Percentage, none => Except.error SplitError.invalidSplitType

/-- Prisma `ExpenseSplit` row. -/
structure Share where
  id : Nat
  splitExpenseId : Nat
  userId : UserId
  amount : ℚ
  isPaid : Bool
  settledAt : Option Time
deriving DecidableEq, Repr

/-- Prisma `SplitExpense` row (fields relevant to the ledger engine). -/
structure SplitExpense where
  id : Nat
  groupId : Nat
  paidById : UserId
  amount : ℚ
deriving DecidableEq, Repr

/-- Prisma `Settlement` row. -/
structure Settlement where
  id : Nat
  fromUserId : UserId
  toUserId : UserId
  amount : ℚ
  splitExpenseId : Option Nat
  settledAt : Time
deriving DecidableEq, Repr

/-- Database snapshot: the tables the lifecycle operations touch. -/
structure Db where
  users : List UserId
  friendships : List (UserId × UserId)
  expenses : List SplitExpense
  shares : List Share
  settlements : List Settlement
deriving DecidableEq, Repr

/-- The `expenseSplit.createMany` payload of `createSplitExpense`: the share of
the user who paid is created with `isPaid: true`, everyone else unpaid.
Row ids are `baseShareId + index`. -/
def mkShares (expId : Nat) (payer : UserId) (baseShareId : Nat)
    (splits : List (UserId × ℚ)) : List Share :=
  splits.enum.map fun p =>
    { id := baseShareId + p.1, splitExpenseId := expId, userId := p.2.1, amount := p.2.2,
      isPaid := p.2.1 == payer, settledAt := none }

/-- `createSplitExpense` after authorization: compute the splits, then create
the expense row and its share rows in one transaction. -/
def createSplitExpense (payer : UserId) (groupId : Nat) (amount : ℚ)
    (activeMembers : List UserId) (splitType : SplitType)
    (customSplits : Option (List CustomSplit)) (expId baseShareId : Nat) :
    Except SplitError (SplitExpense × List Share) :=
  (computeSplits splitType amount activeMembers customSplits).map fun splits =>
    ({ id := expId, groupId := groupId, paidById := payer, amount := amount },
     mkShares expId payer baseShareId splits)

/-- The `AppError`s of the settlement / share lifecycle controllers. -/
inductive ApiError
  | unauthorized
  | notFound
  | selfSettlement
  | notFriends
  | invalidAmount
  | expired
deriving DecidableEq, Repr

/-- `24 * 60 * 60 * 1000` milliseconds: the mutation window hard-coded in
`updateSettlement` and `deleteSettlement`. -/
def GRACE_WINDOW : Time := 24 * 60 * 60 * 1000

/-- The `friendship.findFirst` check of `createSettlement`: a friendship row in
either direction. -/
def areFriends (db : Db) (a b : UserId) : Bool :=
  db.friendships.any fun p => (p.1 == a && p.2 == b) || (p.1 == b && p.2 == a)

/-- The `splitExpense.findFirst` where-clause of `createSettlement`: the
expense with this id, provided either party paid it or holds a split on it. -/
def expenseAccessPred (db : Db) (fromUser toUser : UserId) (expId : Nat)
    (e : SplitExpense) : Bool :=
  e.id == expId && (e.paidById == fromUser || e.paidById == toUser ||
    db.shares.any fun s => s.splitExpenseId == e.id && (s.userId == fromUser || s.userId == toUser))

/-- The `expenseSplit.updateMany` of `createSettlement`: mark as paid every
still-unpaid split of the settling user on the linked expense whose amount the
settlement covers (`amount: { lte: amount }`). -/
def markPaidBySettlement (shares : List Share) (expId : Nat) (u : UserId) (amt : ℚ)
    (now : Time) : List Share :=
  shares.map fun s =>
    if s.splitExpenseId == expId && s.userId == u && decide (s.amount ≤ amt) && !s.isPaid then
      { s with isPaid := true, settledAt := some now }
    else s

/-- `createSettlement` (`controller/settlement.ts`): validates the recipient,
self-settlement, friendship; when linked to an expense, requires the expense to
be accessible to one of the two parties and rejects a settlement larger than
the settling user's own unpaid split; then creates the settlement row and marks
covered splits paid. -/
def createSettlement (db : Db) (now : Time) (fromUser toUser : UserId) (amount : ℚ)
    (splitExpenseId : Option Nat) (newId : Nat) : Except ApiError Db :=
  if !(db.users.contains toUser) then Except.error ApiError.notFound
  else if toUser == fromUser then Except.error ApiError.selfSettlement
  else if !(areFriends db fromUser toUser) then Except.error ApiError.notFriends
  else
    let stl : Settlement :=
      { id := newId, fromUserId := fromUser, toUserId := toUser,
        amount := amount, splitExpenseId := splitExpenseId, settledAt := now }
    let newShares : List Share :=
      match splitExpenseId with
      | none => db.shares
      | some expId => markPaidBySettlement db.shares expId fromUser amount now
    let proceed : Except ApiError Db :=
      Except.ok { db with settlements := db.settlements ++ [stl], shares := newShares }
    match splitExpenseId with
    | none => proceed
    | some expId =>
        match db.expenses.find? (expenseAccessPred db fromUser toUser expId) with
        | none => Except.error ApiError.notFound
        | some _ =>
            match db.shares.find? (fun s => s.splitExpenseId == expId && s.userId == fromUser) with
            | some userSplit =>
                if !userSplit.isPaid && decide (userSplit.amount < amount) then
                  Except.error ApiError.invalidAmount
                else proceed
            | none => proceed

/-- `updateSettlement`: only the creator finds the row; mutation is rejected
once `settledAt < now - 24h`; otherwise the updatable field (amount) is
written. -/
def updateSettlement (db : Db) (now : Time) (actor : UserId) (settlementId : Nat)
    (newAmount : Option ℚ) : Except ApiError Db :=
  match db.settlements.find? (fun s => s.id == settlementId && s.fromUserId == actor) with
  | none => Except.error ApiError.notFound
  | some s =>
      if s.settledAt < now - GRACE_WINDOW then Except.error ApiError.expired
      else Except.ok { db with settlements := (db.settlements.map fun t =>
        if t.id == settlementId then { t with amount := newAmount.getD t.amount } else t) }

/-- The share predicate of the `expenseSplit.updateMany` in `deleteSettlement`:
same linked expense, the settlement creator's own splits, and `settledAt`
exactly equal to the settlement's timestamp. -/
def deleteResetPred (s : Settlement) (expId : Nat) (sh : Share) : Bool :=
  sh.splitExpenseId == expId && sh.userId == s.fromUserId && sh.settledAt == some s.settledAt

/-- `deleteSettlement`: creator-only, same 24h window; a linked settlement
first resets the timestamp-matched splits to unpaid, then the settlement row is
deleted. -/
def deleteSettlement (db : Db) (now : Time) (actor : UserId) (settlementId : Nat) :
    Except ApiError Db :=
  match db.settlements.find? (fun s => s.id == settlementId && s.fromUserId == actor) with
  | none => Except.error ApiError.notFound
  | some s =>
      if s.settledAt < now - GRACE_WINDOW then Except.error ApiError.expired
      else
        let shares := match s.splitExpenseId with
          | none => db.shares
          | some expId => db.shares.map fun sh =>
              if deleteResetPred s expId sh then { sh with isPaid := false, settledAt := none }
              else sh
        let settlements := db.settlements.filter fun t => !(t.id == settlementId)
        Except.ok { db with shares := shares, settlements := settlements }

/-- The where-clause shared by the expense-split controllers: the split's owner
or the payer of its expense. -/
def shareAccessPred (db : Db) (actor : UserId) (s : Share) : Bool :=
  s.userId == actor || db.expenses.any fun e => e.id == s.splitExpenseId && e.paidById == actor

/-- `updateExpenseSplit` (`controller/expenseSplit.ts`): sets the paid flag
(stamping or clearing `settledAt`), and lets only the payer overwrite the
split amount. The zod schema makes `isPaid` mandatory and `amount` optional. -/
def updateExpenseSplit (db : Db) (now : Time) (actor : UserId) (splitId : Nat)
    (isPaidNew : Bool) (amountNew : Option ℚ) : Except ApiError Db :=
  match db.shares.find? (fun s => s.id == splitId && shareAccessPred db actor s) with
  | none => Except.error ApiError.notFound
  | some sh =>
      if amountNew.isSome &&
          !(db.expenses.any fun e => e.id == sh.splitExpenseId && e.paidById == actor) then
        Except.error ApiError.unauthorized
      else
        let settledAtNew : Option Time := if isPaidNew then some now else none
        let shares := db.shares.map fun s =>
          if s.id == splitId then
            { s with isPaid := isPaidNew, settledAt := settledAtNew, amount := amountNew.getD s.amount }
          else s
        Except.ok { db with shares := shares }

/-- `markExpenseSplitsPaid`: all-or-nothing authorization over the id list,
then every listed split is marked paid. -/
def markExpenseSplitsPaid (db : Db) (now : Time) (actor : UserId) (ids : List Nat) :
    Except ApiError Db :=
  let found := db.shares.filter fun s => ids.contains s.id && shareAccessPred db actor s
  if found.length != ids.length then Except.error ApiError.notFound
  else Except.ok { db with shares := (db.shares.map fun s =>
    if ids.contains s.id then { s with isPaid := true, settledAt := some now } else s) }

/-- `markExpenseSplitUnpaid`: single-split reverse of the above. -/
def markExpenseSplitUnpaid (db : Db) (actor : UserId) (splitId : Nat) :
    Except ApiError Db :=
  match db.shares.find? (fun s => s.id == splitId && shareAccessPred db actor s) with
  | none => Except.error ApiError.notFound
  | some _ => Except.ok { db with shares := (db.shares.map fun s =>
      if s.id == splitId then { s with isPaid := false, settledAt := none } else s) }

/-- A directed debt edge, as the balance objects of `getGroupBalances`
(`{ from, to, amount }`): `src` owes `dst`. An unpaid split contributes the
edge `split.userId → splitExpense.paidById` of the split amount. -/
structure Edge where
  src : UserId
  dst : UserId
  amount : ℚ
deriving DecidableEq, Repr

/-- The key test `\x7bdebtor.id\x7d-\x7bcreditor.id\x7d` of the balances map
(ids are opaque, so the pair itself is the key). -/
def onPair (A B : UserId) (e : Edge) : Bool := e.src == A && e.dst == B

/-- `balances.get(key)` over the insertion-ordered entry list. -/
def findPair (A B : UserId) (st : List Edge) : Option Edge :=
  st.find? (onPair A B)

/-- `balances.set(key, v)`: replace the entry in place when the key is
present, append otherwise (JS `Map` insertion-order semantics). -/
def setPair (A B : UserId) (a : ℚ) : List Edge → List Edge
  | [] => [⟨A, B, a⟩]
  | e :: rest => if onPair A B e then ⟨A, B, a⟩ :: rest else e :: setPair A B a rest

/-- `balances.delete(key)`: drop the (unique) entry with this key. -/
def delPair (A B : UserId) : List Edge → List Edge
  | [] => []
  | e :: rest => if onPair A B e then rest else e :: delPair A B rest

/-- The body of the `expenseSplits.forEach` accumulation loop of
`getGroupBalances` (`group.ts`): skip self-edges; subtract from an existing
reverse-direction entry (flipping or deleting it on sign change), otherwise
add to or create the forward entry. -/
def accumulateBalance (st : List Edge) (e : Edge) : List Edge :=
  if e.src == e.dst then st
  else
    match findPair e.dst e.src st with
    | some rev =>
        let newAmount := rev.amount - e.amount
        if 0 < newAmount then setPair e.dst e.src newAmount st
        else if newAmount < 0 then setPair e.src e.dst (-newAmount) (delPair e.dst e.src st)
        else delPair e.dst e.src st
    | none =>
        match findPair e.src e.dst st with
        | some fwd => setPair e.src e.dst (fwd.amount + e.amount) st
        | none => setPair e.src e.dst e.amount st

/-- `getGroupBalances`' netted `balanceArray`: fold the edges through the
accumulation loop, then keep only positive entries. -/
def netBalances (edges : List Edge) : List Edge :=
  (edges.foldl accumulateBalance []).filter fun b => decide (0 < b.amount)

/-- Total amount carried by the `A → B` entries of an edge list. -/
def dirTotal (l : List Edge) (A B : UserId) : ℚ :=
  ((l.filter (onPair A B)).map Edge.amount).sum

/-- Signed net debt of `A` towards `B` in an edge list:
`sum(owed by A to B) - sum(owed by B to A)`. -/
def pairNet (l : List Edge) (A B : UserId) : ℚ := dirTotal l A B - dirTotal l B A

/-- Two edges concern the same unordered user pair. -/
def samePair (a b : Edge) : Prop :=
  (a.src = b.src ∧ a.dst = b.dst) ∨ (a.src = b.dst ∧ a.dst = b.src)

/-- Well-formedness of the balances map: no self-edges, and at most one entry
per unordered pair. -/
def StateWF (st : List Edge) : Prop :=
  (∀ e ∈ st, e.src ≠ e.dst) ∧ st.Pairwise fun a b => ¬ samePair a b

theorem onPair_iff {A B : UserId} {e : Edge} : onPair A B e = true ↔ e.src = A ∧ e.dst = B := by
  simp [onPair]

theorem not_samePair_symmetric : Symmetric fun a b : Edge => ¬ samePair a b := by
  intro a b h hs
  refine h ?_
  rcases hs with ⟨h1, h2⟩ | ⟨h1, h2⟩
  · exact Or.inl ⟨h1.symm, h2.symm⟩
  · exact Or.inr ⟨h2.symm, h1.symm⟩


theorem onPair_eq_false_iff {A B : UserId} {e : Edge} :
    onPair A B e = false ↔ ¬(e.src = A ∧ e.dst = B) := by
  rw [Bool.eq_false_iff, Ne, onPair_iff]

theorem mem_setPair {A B : UserId} {a : ℚ} {st : List Edge} {x : Edge}
    (hx : x ∈ setPair A B a st) : x ∈ st ∨ x = ⟨A, B, a⟩ := by
  induction st with
  | nil =>
      simp only [setPair, List.mem_singleton] at hx
      exact Or.inr hx
  | cons e rest ih =>
      simp only [setPair] at hx
      by_cases h : onPair A B e = true
      · rw [if_pos h] at hx
        rcases List.mem_cons.mp hx with hx | hx
        · exact Or.inr hx
        · exact Or.inl (List.mem_cons_of_mem _ hx)
      · rw [if_neg h] at hx
        rcases List.mem_cons.mp hx with hx | hx
        · exact Or.inl (hx ▸ List.mem_cons_self _ _)
        · rcases ih hx with h2 | h2
          · exact Or.inl (List.mem_cons_of_mem _ h2)
          · exact Or.inr h2

theorem delPair_sublist (A B : UserId) (st : List Edge) : List.Sublist (delPair A B st) st := by
  induction st with
  | nil => exact List.Sublist.refl _
  | cons e rest ih =>
      simp only [delPair]
      by_cases h : onPair A B e = true
      · rw [if_pos h]
        exact List.sublist_cons_self _ _
      · rw [if_neg h]
        exact ih.cons₂ _

theorem setPair_append_of_nil {A B : UserId} {a : ℚ} {st : List Edge}
    (h : st.filter (onPair A B) = []) : setPair A B a st = st ++ [⟨A, B, a⟩] := by
  induction st with
  | nil => rfl
  | cons e rest ih =>
      rw [List.filter_eq_nil_iff] at h
      have he : ¬ onPair A B e = true := h e (List.mem_cons_self _ _)
      simp only [setPair]
      rw [if_neg he, List.cons_append]
      congr 1
      refine ih ?_
      rw [List.filter_eq_nil_iff]
      exact fun x hx => h x (List.mem_cons_of_mem _ hx)

theorem filter_setPair_other {f t A B : UserId} {a : ℚ} (st : List Edge)
    (h : ¬(f = A ∧ t = B)) :
    (setPair f t a st).filter (onPair A B) = st.filter (onPair A B) := by
  have hmk : ¬ onPair A B (⟨f, t, a⟩ : Edge) = true := by
    rw [Bool.not_eq_true, onPair_eq_false_iff]
    exact h
  induction st with
  | nil =>
      simp only [setPair]
      rw [List.filter_cons_of_neg hmk]
  | cons e rest ih =>
      simp only [setPair]
      by_cases he : onPair f t e = true
      · obtain ⟨h1, h2⟩ := onPair_iff.mp he
        have heAB : ¬ onPair A B e = true := by
          rw [Bool.not_eq_true, onPair_eq_false_iff, h1, h2]
          exact h
        rw [if_pos he, List.filter_cons_of_neg hmk, List.filter_cons_of_neg heAB]
      · rw [if_neg he, List.filter_cons, List.filter_cons, ih]

theorem filter_setPair_self_nil {f t : UserId} {a : ℚ} {st : List Edge}
    (h : st.filter (onPair f t) = []) :
    (setPair f t a st).filter (onPair f t) = [⟨f, t, a⟩] := by
  rw [setPair_append_of_nil h, List.filter_append, h]
  simp [onPair]

theorem filter_setPair_self_one {f t : UserId} {a : ℚ} {st : List Edge} {x : Edge}
    (h : st.filter (onPair f t) = [x]) :
    (setPair f t a st).filter (onPair f t) = [⟨f, t, a⟩] := by
  have hmk : onPair f t (⟨f, t, a⟩ : Edge) = true := by simp [onPair]
  induction st with
  | nil => simp at h
  | cons e rest ih =>
      simp only [setPair]
      by_cases he : onPair f t e = true
      · have hrest : rest.filter (onPair f t) = [] := by
          rw [List.filter_cons_of_pos he] at h
          exact (List.cons_eq_cons.mp h).2
        rw [if_pos he, List.filter_cons_of_pos hmk, hrest]
      · have hrest : rest.filter (onPair f t) = [x] := by
          rwa [List.filter_cons_of_neg he] at h
        rw [if_neg he, List.filter_cons_of_neg he, ih hrest]

theorem filter_delPair_other {f t A B : UserId} (st : List Edge)
    (h : ¬(f = A ∧ t = B)) :
    (delPair f t st).filter (onPair A B) = st.filter (onPair A B) := by
  induction st with
  | nil => rfl
  | cons e rest ih =>
      simp only [delPair]
      by_cases he : onPair f t e = true
      · obtain ⟨h1, h2⟩ := onPair_iff.mp he
        have heAB : ¬ onPair A B e = true := by
          rw [Bool.not_eq_true, onPair_eq_false_iff, h1, h2]
          exact h
        rw [if_pos he, List.filter_cons_of_neg heAB]
      · rw [if_neg he, List.filter_cons, List.filter_cons, ih]

theorem filter_delPair_self (f t : UserId) (st : List Edge) :
    (delPair f t st).filter (onPair f t) = (st.filter (onPair f t)).tail := by
  induction st with
  | nil => rfl
  | cons e rest ih =>
      simp only [delPair]
      by_cases he : onPair f t e = true
      · rw [if_pos he, List.filter_cons_of_pos he, List.tail_cons]
      · rw [if_neg he, List.filter_cons_of_neg he, List.filter_cons_of_neg he, ih]

theorem findPair_eq_head_filter (A B : UserId) (st : List Edge) :
    findPair A B st = (st.filter (onPair A B)).head? := by
  induction st with
  | nil => rfl
  | cons e rest ih =>
      by_cases he : onPair A B e = true
      · rw [findPair, List.find?_cons_of_pos _ he, List.filter_cons_of_pos he, List.head?_cons]
      · rw [findPair, List.find?_cons_of_neg _ he, List.filter_cons_of_neg he]
        exact ih

theorem findPair_none_iff {A B : UserId} {st : List Edge} :
    findPair A B st = none ↔ st.filter (onPair A B) = [] := by
  rw [findPair_eq_head_filter, List.head?_eq_none_iff]

/-- Every entry of the balances map has a strictly positive amount. -/
def AllPos (l : List Edge) : Prop := ∀ e ∈ l, 0 < e.amount

theorem wf_mem_unique {st : List Edge} (hwf : StateWF st) {x y : Edge}
    (hx : x ∈ st) (hy : y ∈ st) (hp : samePair x y) : x = y := by
  by_contra hne
  exact hwf.2.forall not_samePair_symmetric hx hy hne hp

theorem pairList_cases {st : List Edge} (hwf : StateWF st) (A B : UserId) :
    st.filter (onPair A B) = [] ∨ ∃ v, st.filter (onPair A B) = [⟨A, B, v⟩] := by
  induction st with
  | nil => exact Or.inl rfl
  | cons e rest ih =>
      obtain ⟨hself, hpw⟩ := hwf
      rw [List.pairwise_cons] at hpw
      have hwfr : StateWF rest := ⟨fun x hx => hself x (List.mem_cons_of_mem _ hx), hpw.2⟩
      by_cases he : onPair A B e = true
      · obtain ⟨hsrc, hdst⟩ := onPair_iff.mp he
        right
        refine ⟨e.amount, ?_⟩
        rw [List.filter_cons_of_pos he]
        have hrest : rest.filter (onPair A B) = [] := by
          rw [List.filter_eq_nil_iff]
          intro x hx hxp
          obtain ⟨xs, xd⟩ := onPair_iff.mp hxp
          exact hpw.1 x hx (Or.inl ⟨by rw [hsrc, xs], by rw [hdst, xd]⟩)
        rw [hrest]
        obtain ⟨es, ed, ea⟩ := e
        simp only at hsrc hdst
        rw [hsrc, hdst]
      · rw [List.filter_cons_of_neg he]
        exact ih hwfr

theorem findPair_some {st : List Edge} (hwf : StateWF st) {A B : UserId} {x : Edge}
    (h : findPair A B st = some x) :
    x.src = A ∧ x.dst = B ∧ st.filter (onPair A B) = [x] ∧ A ≠ B := by
  have hx : onPair A B x = true := List.find?_some h
  obtain ⟨hxs, hxd⟩ := onPair_iff.mp hx
  have hxm : x ∈ st := List.mem_of_find?_eq_some h
  have hAB : A ≠ B := by
    intro hab
    exact hwf.1 x hxm (by rw [hxs, hxd, hab])
  rcases pairList_cases hwf A B with hc | ⟨v, hc⟩
  · rw [findPair_eq_head_filter, hc] at h
    exact absurd h (by simp)
  · rw [findPair_eq_head_filter, hc] at h
    simp only [List.head?_cons, Option.some.injEq] at h
    exact ⟨hxs, hxd, by rw [hc, h], hAB⟩

theorem findPair_some_rev_nil {st : List Edge} (hwf : StateWF st) {A B : UserId} {x : Edge}
    (h : findPair A B st = some x) : st.filter (onPair B A) = [] := by
  obtain ⟨hxs, hxd, hfl, hAB⟩ := findPair_some hwf h
  rw [List.filter_eq_nil_iff]
  intro y hy hyp
  obtain ⟨hys, hyd⟩ := onPair_iff.mp hyp
  have hxm : x ∈ st := List.mem_of_find?_eq_some h
  have hxy : x = y := wf_mem_unique hwf hxm hy (Or.inr ⟨by rw [hxs, hyd], by rw [hxd, hys]⟩)
  exact hAB (by rw [← hxs, hxy, hys])

theorem wf_setPair {f t : UserId} {a : ℚ} {st : List Edge} (hwf : StateWF st)
    (hft : f ≠ t) (hrev : st.filter (onPair t f) = []) : StateWF (setPair f t a st) := by
  induction st with
  | nil =>
      constructor
      · intro e he
        simp only [setPair, List.mem_singleton] at he
        rw [he]
        exact hft
      · simp only [setPair]
        exact List.pairwise_singleton _ _
  | cons e rest ih =>
      obtain ⟨hself, hpw⟩ := hwf
      rw [List.pairwise_cons] at hpw
      have hwfr : StateWF rest := ⟨fun x hx => hself x (List.mem_cons_of_mem _ hx), hpw.2⟩
      rw [List.filter_eq_nil_iff] at hrev
      have hrevr : rest.filter (onPair t f) = [] := by
        rw [List.filter_eq_nil_iff]
        exact fun x hx => hrev x (List.mem_cons_of_mem _ hx)
      simp only [setPair]
      by_cases he : onPair f t e = true
      · obtain ⟨hes, hed⟩ := onPair_iff.mp he
        rw [if_pos he]
        constructor
        · intro x hx
          rcases List.mem_cons.mp hx with hx | hx
          · rw [hx]
            exact hft
          · exact hself x (List.mem_cons_of_mem _ hx)
        · rw [List.pairwise_cons]
          refine ⟨fun b hb hsp => hpw.1 b hb ?_, hpw.2⟩
          rcases hsp with ⟨h1, h2⟩ | ⟨h1, h2⟩
          · exact Or.inl ⟨by rw [hes]; exact h1, by rw [hed]; exact h2⟩
          · exact Or.inr ⟨by rw [hes]; exact h1, by rw [hed]; exact h2⟩
      · rw [if_neg he]
        have hrw : StateWF (setPair f t a rest) := ih hwfr (by
          rw [List.filter_eq_nil_iff]
          exact fun x hx => hrev x (List.mem_cons_of_mem _ hx))
        constructor
        · intro x hx
          rcases List.mem_cons.mp hx with hx | hx
          · rw [hx]
            exact hself e (List.mem_cons_self _ _)
          · exact hrw.1 x hx
        · rw [List.pairwise_cons]
          refine ⟨?_, hrw.2⟩
          intro b hb hsp
          rcases mem_setPair hb with hb2 | hb2
          · exact hpw.1 b hb2 hsp
          · rw [hb2] at hsp
            rcases hsp with ⟨h1, h2⟩ | ⟨h1, h2⟩
            · exact he (onPair_iff.mpr ⟨h1, h2⟩)
            · exact hrev e (List.mem_cons_self _ _) (onPair_iff.mpr ⟨h1, h2⟩)

theorem wf_delPair {f t : UserId} {st : List Edge} (hwf : StateWF st) :
    StateWF (delPair f t st) := by
  constructor
  · exact fun e he => hwf.1 e ((delPair_sublist f t st).subset he)
  · exact hwf.2.sublist (delPair_sublist f t st)

theorem allPos_setPair {f t : UserId} {a : ℚ} {st : List Edge} (hpos : AllPos st)
    (ha : 0 < a) : AllPos (setPair f t a st) := by
  intro x hx
  rcases mem_setPair hx with hx | hx
  · exact hpos x hx
  · rw [hx]
    exact ha

theorem allPos_delPair {f t : UserId} {st : List Edge} (hpos : AllPos st) :
    AllPos (delPair f t st) :=
  fun e he => hpos e ((delPair_sublist f t st).subset he)

theorem dirTotal_nil (A B : UserId) : dirTotal [] A B = 0 := rfl

theorem pairNet_nil (A B : UserId) : pairNet [] A B = 0 := by
  rw [pairNet, dirTotal_nil, dirTotal_nil, sub_zero]

theorem dirTotal_of_filter_nil {st : List Edge} {A B : UserId}
    (h : st.filter (onPair A B) = []) : dirTotal st A B = 0 := by
  rw [dirTotal, h]
  rfl

theorem dirTotal_of_filter_one {st : List Edge} {A B : UserId} {x : Edge}
    (h : st.filter (onPair A B) = [x]) : dirTotal st A B = x.amount := by
  rw [dirTotal, h]
  simp

theorem dirTotal_single (e : Edge) (A B : UserId) :
    dirTotal [e] A B = if onPair A B e = true then e.amount else 0 := by
  by_cases h : onPair A B e = true
  · rw [if_pos h, dirTotal, List.filter_cons_of_pos h]
    simp
  · rw [if_neg h, dirTotal, List.filter_cons_of_neg h]
    rfl

theorem dirTotal_cons (e : Edge) (l : List Edge) (A B : UserId) :
    dirTotal (e :: l) A B = dirTotal [e] A B + dirTotal l A B := by
  by_cases h : onPair A B e = true
  · rw [dirTotal, List.filter_cons_of_pos h, dirTotal_single, if_pos h]
    simp [dirTotal]
  · rw [dirTotal, List.filter_cons_of_neg h, dirTotal_single, if_neg h]
    simp [dirTotal]

theorem pairNet_cons (e : Edge) (l : List Edge) (A B : UserId) :
    pairNet (e :: l) A B = pairNet [e] A B + pairNet l A B := by
  rw [pairNet, pairNet, pairNet, dirTotal_cons, dirTotal_cons e l B A]
  ring

theorem pairNet_antisymm (l : List Edge) (A B : UserId) : pairNet l A B = -pairNet l B A := by
  rw [pairNet, pairNet]
  ring

theorem accumulateBalance_self {st : List Edge} {e : Edge} (h : e.src = e.dst) :
    accumulateBalance st e = st := by
  rw [accumulateBalance, if_pos (by simp [h])]

theorem accumulateBalance_rev {st : List Edge} {e : Edge} {rev : Edge} (h1 : ¬ e.src = e.dst)
    (h2 : findPair e.dst e.src st = some rev) :
    accumulateBalance st e =
      (if 0 < rev.amount - e.amount then setPair e.dst e.src (rev.amount - e.amount) st
       else if rev.amount - e.amount < 0 then
         setPair e.src e.dst (-(rev.amount - e.amount)) (delPair e.dst e.src st)
       else delPair e.dst e.src st) := by
  rw [accumulateBalance, if_neg (by simp [h1]), h2]

theorem accumulateBalance_fwd {st : List Edge} {e : Edge} {fwd : Edge} (h1 : ¬ e.src = e.dst)
    (h2 : findPair e.dst e.src st = none) (h3 : findPair e.src e.dst st = some fwd) :
    accumulateBalance st e = setPair e.src e.dst (fwd.amount + e.amount) st := by
  rw [accumulateBalance, if_neg (by simp [h1]), h2, h3]

theorem accumulateBalance_new {st : List Edge} {e : Edge} (h1 : ¬ e.src = e.dst)
    (h2 : findPair e.dst e.src st = none) (h3 : findPair e.src e.dst st = none) :
    accumulateBalance st e = setPair e.src e.dst e.amount st := by
  rw [accumulateBalance, if_neg (by simp [h1]), h2, h3]

theorem dirTotal_setPair_other {f t A B : UserId} {a : ℚ} (st : List Edge)
    (h : ¬(f = A ∧ t = B)) : dirTotal (setPair f t a st) A B = dirTotal st A B := by
  rw [dirTotal, filter_setPair_other st h, dirTotal]

theorem dirTotal_setPair_self_nil {f t : UserId} {a : ℚ} {st : List Edge}
    (h : st.filter (onPair f t) = []) : dirTotal (setPair f t a st) f t = a := by
  rw [dirTotal, filter_setPair_self_nil h]
  simp

theorem dirTotal_setPair_self_one {f t : UserId} {a : ℚ} {st : List Edge} {x : Edge}
    (h : st.filter (onPair f t) = [x]) : dirTotal (setPair f t a st) f t = a := by
  rw [dirTotal, filter_setPair_self_one h]
  simp

theorem dirTotal_delPair_other {f t A B : UserId} (st : List Edge)
    (h : ¬(f = A ∧ t = B)) : dirTotal (delPair f t st) A B = dirTotal st A B := by
  rw [dirTotal, filter_delPair_other st h, dirTotal]

theorem dirTotal_delPair_of_one {f t : UserId} {st : List Edge} {x : Edge}
    (h : st.filter (onPair f t) = [x]) : dirTotal (delPair f t st) f t = 0 := by
  rw [dirTotal, filter_delPair_self, h, List.tail_cons]
  rfl

theorem accumulateBalance_wf {st : List Edge} (hwf : StateWF st) (e : Edge) :
    StateWF (accumulateBalance st e) := by
  by_cases hself : e.src = e.dst
  · rw [accumulateBalance_self hself]
    exact hwf
  · cases hrev : findPair e.dst e.src st with
    | some rev =>
        obtain ⟨hrs, hrd, hrfl, hTS⟩ := findPair_some hwf hrev
        have hFT : st.filter (onPair e.src e.dst) = [] := findPair_some_rev_nil hwf hrev
        rw [accumulateBalance_rev hself hrev]
        by_cases h1 : 0 < rev.amount - e.amount
        · rw [if_pos h1]
          exact wf_setPair hwf (fun h => hself h.symm) hFT
        · rw [if_neg h1]
          by_cases h2 : rev.amount - e.amount < 0
          · rw [if_pos h2]
            refine wf_setPair (wf_delPair hwf) hself ?_
            rw [filter_delPair_self, hrfl, List.tail_cons]
          · rw [if_neg h2]
            exact wf_delPair hwf
    | none =>
        have hTF : st.filter (onPair e.dst e.src) = [] := findPair_none_iff.mp hrev
        cases hfwd : findPair e.src e.dst st with
        | some fwd =>
            rw [accumulateBalance_fwd hself hrev hfwd]
            exact wf_setPair hwf hself hTF
        | none =>
            rw [accumulateBalance_new hself hrev hfwd]
            exact wf_setPair hwf hself hTF

theorem accumulateBalance_allPos {st : List Edge} (hpos : AllPos st) {e : Edge}
    (hep : 0 < e.amount) : AllPos (accumulateBalance st e) := by
  by_cases hself : e.src = e.dst
  · rw [accumulateBalance_self hself]
    exact hpos
  · cases hrev : findPair e.dst e.src st with
    | some rev =>
        rw [accumulateBalance_rev hself hrev]
        by_cases h1 : 0 < rev.amount - e.amount
        · rw [if_pos h1]
          exact allPos_setPair hpos h1
        · rw [if_neg h1]
          by_cases h2 : rev.amount - e.amount < 0
          · rw [if_pos h2]
            exact allPos_setPair (allPos_delPair hpos) (by linarith)
          · rw [if_neg h2]
            exact allPos_delPair hpos
    | none =>
        cases hfwd : findPair e.src e.dst st with
        | some fwd =>
            rw [accumulateBalance_fwd hself hrev hfwd]
            have hf : 0 < fwd.amount := hpos fwd (List.mem_of_find?_eq_some hfwd)
            exact allPos_setPair hpos (by linarith)
        | none =>
            rw [accumulateBalance_new hself hrev hfwd]
            exact allPos_setPair hpos hep

theorem accumulateBalance_net_self {st : List Edge} (hwf : StateWF st) {e : Edge}
    (hne : ¬ e.src = e.dst) :
    pairNet (accumulateBalance st e) e.src e.dst = pairNet st e.src e.dst + e.amount := by
  have hns : ¬(e.dst = e.src ∧ e.src = e.dst) := fun h => hne h.2
  have hns2 : ¬(e.src = e.dst ∧ e.dst = e.src) := fun h => hne h.1
  cases hrev : findPair e.dst e.src st with
  | some rev =>
      obtain ⟨hrs, hrd, hrfl, hTS⟩ := findPair_some hwf hrev
      have hFT : st.filter (onPair e.src e.dst) = [] := findPair_some_rev_nil hwf hrev
      have hdF : dirTotal st e.src e.dst = 0 := dirTotal_of_filter_nil hFT
      have hdT : dirTotal st e.dst e.src = rev.amount := dirTotal_of_filter_one hrfl
      rw [accumulateBalance_rev hne hrev]
      by_cases h1 : 0 < rev.amount - e.amount
      · rw [if_pos h1, pairNet, pairNet, hdF, hdT,
          dirTotal_setPair_other st hns, hdF, dirTotal_setPair_self_one hrfl]
        linarith
      · rw [if_neg h1]
        by_cases h2 : rev.amount - e.amount < 0
        · rw [if_pos h2, pairNet, pairNet, hdF, hdT,
            dirTotal_setPair_self_nil (by rw [filter_delPair_other st hns]; exact hFT),
            dirTotal_setPair_other _ hns2,
            dirTotal_delPair_of_one hrfl]
          linarith
        · have h3 : rev.amount - e.amount = 0 := by linarith
          rw [if_neg h2, pairNet, pairNet, hdF, hdT,
            dirTotal_delPair_other st hns, hdF, dirTotal_delPair_of_one hrfl]
          linarith
  | none =>
      have hTF : st.filter (onPair e.dst e.src) = [] := findPair_none_iff.mp hrev
      have hdT : dirTotal st e.dst e.src = 0 := dirTotal_of_filter_nil hTF
      cases hfwd : findPair e.src e.dst st with
      | some fwd =>
          obtain ⟨hfs, hfd, hffl, hFS⟩ := findPair_some hwf hfwd
          have hdF : dirTotal st e.src e.dst = fwd.amount := dirTotal_of_filter_one hffl
          rw [accumulateBalance_fwd hne hrev hfwd, pairNet, pairNet, hdF, hdT,
            dirTotal_setPair_self_one hffl, dirTotal_setPair_other st hns2, hdT]
          linarith
      | none =>
          have hFT : st.filter (onPair e.src e.dst) = [] := findPair_none_iff.mp hfwd
          have hdF : dirTotal st e.src e.dst = 0 := dirTotal_of_filter_nil hFT
          rw [accumulateBalance_new hne hrev hfwd, pairNet, pairNet, hdF, hdT,
            dirTotal_setPair_self_nil hFT, dirTotal_setPair_other st hns2, hdT]
          linarith

theorem accumulateBalance_net_other {st : List Edge} (e : Edge) {A B : UserId}
    (h1 : ¬(e.src = A ∧ e.dst = B)) (h2 : ¬(e.dst = A ∧ e.src = B)) :
    pairNet (accumulateBalance st e) A B = pairNet st A B := by
  have h1r : ¬(e.dst = B ∧ e.src = A) := fun h => h1 ⟨h.2, h.1⟩
  have h2r : ¬(e.src = B ∧ e.dst = A) := fun h => h2 ⟨h.2, h.1⟩
  by_cases hself : e.src = e.dst
  · rw [accumulateBalance_self hself]
  · cases hrev : findPair e.dst e.src st with
    | some rev =>
        rw [accumulateBalance_rev hself hrev]
        by_cases hc1 : 0 < rev.amount - e.amount
        · rw [if_pos hc1, pairNet, dirTotal_setPair_other st h2,
            dirTotal_setPair_other st h1r, pairNet]
        · rw [if_neg hc1]
          by_cases hc2 : rev.amount - e.amount < 0
          · rw [if_pos hc2, pairNet, dirTotal_setPair_other _ h1,
              dirTotal_setPair_other _ h2r, dirTotal_delPair_other st h2,
              dirTotal_delPair_other st h1r, pairNet]
          · rw [if_neg hc2, pairNet, dirTotal_delPair_other st h2,
              dirTotal_delPair_other st h1r, pairNet]
    | none =>
        cases hfwd : findPair e.src e.dst st with
        | some fwd =>
            rw [accumulateBalance_fwd hself hrev hfwd, pairNet, dirTotal_setPair_other st h1,
              dirTotal_setPair_other st h2r, pairNet]
        | none =>
            rw [accumulateBalance_new hself hrev hfwd, pairNet, dirTotal_setPair_other st h1,
              dirTotal_setPair_other st h2r, pairNet]

theorem accumulateBalance_net {st : List Edge} (hwf : StateWF st) (e : Edge) (A B : UserId) :
    pairNet (accumulateBalance st e) A B = pairNet st A B + pairNet [e] A B := by
  by_cases hself : e.src = e.dst
  · rw [accumulateBalance_self hself]
    have hz : pairNet [e] A B = 0 := by
      rw [pairNet, dirTotal_single, dirTotal_single]
      by_cases hA : e.src = A ∧ e.dst = B
      · rw [if_pos (onPair_iff.mpr hA),
          if_pos (onPair_iff.mpr ⟨by rw [hself, hA.2], by rw [← hself, hA.1]⟩), sub_self]
      · rw [if_neg (fun hc => hA (onPair_iff.mp hc)), if_neg, sub_self]
        intro hc
        obtain ⟨hcs, hcd⟩ := onPair_iff.mp hc
        exact hA ⟨by rw [hself, hcd], by rw [← hself, hcs]⟩
    rw [hz, add_zero]
  · have hrev1 : ¬ onPair e.dst e.src e = true := by
      rw [Bool.not_eq_true, onPair_eq_false_iff]
      exact fun h => hself h.1
    by_cases hA : A = e.src ∧ B = e.dst
    · obtain ⟨ha, hb⟩ := hA
      subst ha
      subst hb
      have he : pairNet [e] e.src e.dst = e.amount := by
        rw [pairNet, dirTotal_single, dirTotal_single, if_pos (onPair_iff.mpr ⟨rfl, rfl⟩),
          if_neg hrev1, sub_zero]
      rw [he, accumulateBalance_net_self hwf hself]
    · by_cases hB : A = e.dst ∧ B = e.src
      · obtain ⟨ha, hb⟩ := hB
        subst ha
        subst hb
        have he : pairNet [e] e.dst e.src = -e.amount := by
          rw [pairNet, dirTotal_single, dirTotal_single, if_neg hrev1,
            if_pos (onPair_iff.mpr ⟨rfl, rfl⟩), zero_sub]
        have hmain := accumulateBalance_net_self hwf hself
        have h1 := pairNet_antisymm (accumulateBalance st e) e.dst e.src
        have h2 := pairNet_antisymm st e.dst e.src
        rw [he]
        linarith
      · have h1 : ¬(e.src = A ∧ e.dst = B) := fun h => hA ⟨h.1.symm, h.2.symm⟩
        have h2 : ¬(e.dst = A ∧ e.src = B) := fun h => hB ⟨h.1.symm, h.2.symm⟩
        have hz : pairNet [e] A B = 0 := by
          rw [pairNet, dirTotal_single, dirTotal_single,
            if_neg (fun hc => h1 (onPair_iff.mp hc)),
            if_neg (fun hc => h2 ⟨(onPair_iff.mp hc).2, (onPair_iff.mp hc).1⟩), sub_self]
        rw [hz, add_zero, accumulateBalance_net_other e h1 h2]

theorem StateWF_nil : StateWF [] := ⟨fun e he => absurd he (List.not_mem_nil e), List.Pairwise.nil⟩

theorem foldl_accumulate_inv (edges : List Edge) :
    ∀ st : List Edge, StateWF st →
      StateWF (edges.foldl accumulateBalance st) ∧
      (∀ A B, pairNet (edges.foldl accumulateBalance st) A B = pairNet st A B + pairNet edges A B) ∧
      (AllPos st → AllPos edges → AllPos (edges.foldl accumulateBalance st)) := by
  induction edges with
  | nil =>
      intro st hwf
      refine ⟨hwf, fun A B => by rw [List.foldl_nil, pairNet_nil, add_zero], fun h _ => h⟩
  | cons e es ih =>
      intro st hwf
      obtain ⟨h1, h2, h3⟩ := ih (accumulateBalance st e) (accumulateBalance_wf hwf e)
      refine ⟨h1, fun A B => ?_, fun hst hes => ?_⟩
      · rw [List.foldl_cons, h2 A B, accumulateBalance_net hwf e A B, pairNet_cons e es A B]
        ring
      · rw [List.foldl_cons]
        exact h3 (accumulateBalance_allPos hst (hes e (List.mem_cons_self _ _)))
          (fun x hx => hes x (List.mem_cons_of_mem _ hx))

theorem netBalances_wf (edges : List Edge) : StateWF (netBalances edges) := by
  have h := (foldl_accumulate_inv edges [] StateWF_nil).1
  rw [netBalances]
  constructor
  · exact fun e he => h.1 e ((List.filter_sublist _).subset he)
  · exact h.2.sublist (List.filter_sublist _)

theorem netBalances_allPos (edges : List Edge) : AllPos (netBalances edges) := by
  intro e he
  rw [netBalances] at he
  have := (List.mem_filter.mp he).2
  exact of_decide_eq_true this

theorem netBalances_eq_of_allPos {edges : List Edge} (hpos : AllPos edges) :
    netBalances edges = edges.foldl accumulateBalance [] := by
  obtain ⟨h1, h2, h3⟩ := foldl_accumulate_inv edges [] StateWF_nil
  rw [netBalances, List.filter_eq_self]
  intro x hx
  exact decide_eq_true (h3 (fun e he => absurd he (List.not_mem_nil e)) hpos x hx)

theorem netBalances_pairNet {edges : List Edge} (hpos : AllPos edges) (A B : UserId) :
    pairNet (netBalances edges) A B = pairNet edges A B := by
  obtain ⟨h1, h2, h3⟩ := foldl_accumulate_inv edges [] StateWF_nil
  rw [netBalances_eq_of_allPos hpos, h2 A B, pairNet_nil, zero_add]

theorem netted_pair_form {l : List Edge} (hwf : StateWF l) (hpos : AllPos l)
    {A B : UserId} (hAB : A ≠ B) :
    (pairNet l A B = 0 ∧ l.filter (onPair A B) = [] ∧ l.filter (onPair B A) = []) ∨
    (0 < pairNet l A B ∧ l.filter (onPair A B) = [⟨A, B, pairNet l A B⟩] ∧
      l.filter (onPair B A) = []) ∨
    (pairNet l A B < 0 ∧ l.filter (onPair A B) = [] ∧
      l.filter (onPair B A) = [⟨B, A, -pairNet l A B⟩]) := by
  rcases pairList_cases hwf A B with hab | ⟨v, hab⟩
  · rcases pairList_cases hwf B A with hba | ⟨w, hba⟩
    · left
      have : pairNet l A B = 0 := by
        rw [pairNet, dirTotal_of_filter_nil hab, dirTotal_of_filter_nil hba, sub_zero]
      exact ⟨this, hab, hba⟩
    · right; right
      have hw : 0 < w := by
        have hm : (⟨B, A, w⟩ : Edge) ∈ l := by
          have : (⟨B, A, w⟩ : Edge) ∈ l.filter (onPair B A) := by
            rw [hba]
            exact List.mem_singleton.mpr rfl
          exact (List.mem_filter.mp this).1
        exact hpos _ hm
      have hnet : pairNet l A B = -w := by
        rw [pairNet, dirTotal_of_filter_nil hab, dirTotal_of_filter_one hba, zero_sub]
      refine ⟨by rw [hnet]; linarith, hab, ?_⟩
      rw [hba, hnet, neg_neg]
  · rcases pairList_cases hwf B A with hba | ⟨w, hba⟩
    · right; left
      have hv : 0 < v := by
        have hm : (⟨A, B, v⟩ : Edge) ∈ l := by
          have : (⟨A, B, v⟩ : Edge) ∈ l.filter (onPair A B) := by
            rw [hab]
            exact List.mem_singleton.mpr rfl
          exact (List.mem_filter.mp this).1
        exact hpos _ hm
      have hnet : pairNet l A B = v := by
        rw [pairNet, dirTotal_of_filter_one hab, dirTotal_of_filter_nil hba, sub_zero]
      refine ⟨by rw [hnet]; exact hv, ?_, hba⟩
      rw [hab, hnet]
    · exfalso
      have hx : (⟨A, B, v⟩ : Edge) ∈ l := by
        have : (⟨A, B, v⟩ : Edge) ∈ l.filter (onPair A B) := by
          rw [hab]
          exact List.mem_singleton.mpr rfl
        exact (List.mem_filter.mp this).1
      have hy : (⟨B, A, w⟩ : Edge) ∈ l := by
        have : (⟨B, A, w⟩ : Edge) ∈ l.filter (onPair B A) := by
          rw [hba]
          exact List.mem_singleton.mpr rfl
        exact (List.mem_filter.mp this).1
      have := wf_mem_unique hwf hx hy (Or.inr ⟨rfl, rfl⟩)
      rw [Edge.mk.injEq] at this
      exact hAB this.1

theorem foldl_accumulate_netted (l : List Edge) :
    ∀ acc : List Edge, StateWF (acc ++ l) → l.foldl accumulateBalance acc = acc ++ l := by
  induction l with
  | nil =>
      intro acc _
      rw [List.foldl_nil, List.append_nil]
  | cons e es ih =>
      intro acc hwf
      have hmem : e ∈ acc ++ e :: es := List.mem_append_right _ (List.mem_cons_self _ _)
      have hne : ¬ e.src = e.dst := hwf.1 e hmem
      have hcross : ∀ x ∈ acc, ¬ samePair x e := by
        intro x hx
        have := List.pairwise_append.mp hwf.2
        exact this.2.2 x hx e (List.mem_cons_self _ _)
      have hrev : findPair e.dst e.src acc = none := by
        rw [findPair, List.find?_eq_none]
        intro x hx hxp
        obtain ⟨h1, h2⟩ := onPair_iff.mp hxp
        exact hcross x hx (Or.inr ⟨h1, h2⟩)
      have hfwd : findPair e.src e.dst acc = none := by
        rw [findPair, List.find?_eq_none]
        intro x hx hxp
        obtain ⟨h1, h2⟩ := onPair_iff.mp hxp
        exact hcross x hx (Or.inl ⟨h1, h2⟩)
      have hstep : accumulateBalance acc e = acc ++ [e] := by
        rw [accumulateBalance_new hne hrev hfwd,
          setPair_append_of_nil (findPair_none_iff.mp hfwd)]
      rw [List.foldl_cons, hstep, ih (acc ++ [e]) (by rwa [List.append_assoc, List.singleton_append])]
      rw [List.append_assoc, List.singleton_append]

theorem netted_fixed {l : List Edge} (hwf : StateWF l) (hpos : AllPos l) :
    netBalances l = l := by
  rw [netBalances_eq_of_allPos hpos, foldl_accumulate_netted l [] (by rwa [List.nil_append]),
    List.nil_append]

/-- C2: for every stream of positive directed debt edges, the netted balance
set of `getGroupBalances` contains, for each user pair `{A, B}` with
`net = sum(A owes B) - sum(B owes A)`: exactly one edge `A → B` of `net` when
`net > 0`, no edge on the pair when `net = 0`, and exactly one edge `B → A` of
`|net|` when `net < 0`; self-edges are discarded and never appear in the
output. -/
theorem getGroupBalances_netting (edges : List Edge) (hpos : ∀ e ∈ edges, 0 < e.amount)
    (A B : UserId) (hAB : A ≠ B) :
    (0 < pairNet edges A B →
      (netBalances edges).filter (onPair A B) = [⟨A, B, pairNet edges A B⟩] ∧
      (netBalances edges).filter (onPair B A) = []) ∧
    (pairNet edges A B = 0 →
      (netBalances edges).filter (onPair A B) = [] ∧
      (netBalances edges).filter (onPair B A) = []) ∧
    (pairNet edges A B < 0 →
      (netBalances edges).filter (onPair A B) = [] ∧
      (netBalances edges).filter (onPair B A) = [⟨B, A, -pairNet edges A B⟩]) ∧
    (∀ e ∈ netBalances edges, e.src ≠ e.dst) := by
  have hwf := netBalances_wf edges
  have hap := netBalances_allPos edges
  have hpn := netBalances_pairNet hpos A B
  rcases netted_pair_form hwf hap hAB with ⟨h0, ha, hb⟩ | ⟨h0, ha, hb⟩ | ⟨h0, ha, hb⟩
  · rw [hpn] at h0
    exact ⟨fun h => absurd h (by rw [h0]; exact lt_irrefl 0), fun _ => ⟨ha, hb⟩,
      fun h => absurd h (by rw [h0]; exact lt_irrefl 0), fun e he => hwf.1 e he⟩
  · rw [hpn] at h0 ha
    exact ⟨fun _ => ⟨ha, hb⟩, fun h => absurd h (by linarith), fun h => absurd h (by linarith),
      fun e he => hwf.1 e he⟩
  · rw [hpn] at h0 hb
    exact ⟨fun h => absurd h (by linarith), fun h => absurd h (by linarith), fun _ => ⟨ha, hb⟩,
      fun e he => hwf.1 e he⟩

/-- Witness for the C2 theorem at a concrete input (the spec's own example:
A owes B 30 and B owes A 10, so the net result is a single edge A→B of 20). -/
theorem getGroupBalances_netting_witness :
    (∀ e ∈ [Edge.mk 0 1 30, Edge.mk 1 0 10], 0 < e.amount) ∧ (0 : UserId) ≠ 1 ∧
    0 < pairNet [Edge.mk 0 1 30, Edge.mk 1 0 10] 0 1 ∧
    (netBalances [Edge.mk 0 1 30, Edge.mk 1 0 10]).filter (onPair 0 1) =
      [⟨0, 1, pairNet [Edge.mk 0 1 30, Edge.mk 1 0 10] 0 1⟩] ∧
    (netBalances [Edge.mk 0 1 30, Edge.mk 1 0 10]).filter (onPair 1 0) = [] := by
  have hpos : ∀ e ∈ [Edge.mk 0 1 30, Edge.mk 1 0 10], 0 < e.amount := by decide
  have hAB : (0 : UserId) ≠ 1 := by decide
  have hnet : 0 < pairNet [Edge.mk 0 1 30, Edge.mk 1 0 10] 0 1 := by
    simp [pairNet, dirTotal, onPair, List.filter]
    norm_num
  obtain ⟨hmain, -, -, -⟩ := getGroupBalances_netting [Edge.mk 0 1 30, Edge.mk 1 0 10] hpos 0 1 hAB
  obtain ⟨h1, h2⟩ := hmain hnet
  exact ⟨hpos, hAB, hnet, h1, h2⟩

/-- C3: netting is idempotent — re-running `getGroupBalances`' netting on an
already-netted edge list reproduces it exactly (the same list, bit for bit). -/
theorem netting_idempotent (edges : List Edge) :
    netBalances (netBalances edges) = netBalances edges :=
  netted_fixed (netBalances_wf edges) (netBalances_allPos edges)

theorem round2_concrete_100_3 : round2 ((100 : ℚ) / 3) = 3333 / 100 := by
  rw [round2, show ((100 : ℚ) / 3) * 100 = 10000 / 3 by norm_num,
    jsRound_eq_of (z := 3333) (by norm_num) (by norm_num)]
  norm_num

/-- Counterexample to C1 as stated: splitting 100.00 equally among three group
members gives every member `round2(100/3) = 33.33`, and the shares sum to
`99.99 ≠ 100` — the rounding residual is never redistributed. -/
theorem equalSplit_claim_counterexample :
    computeSplits SplitType.Equal 100 [0, 1, 2] none =
      Except.ok [(0, 3333/100), (1, 3333/100), (2, 3333/100)] ∧
    (([((0 : UserId), (3333 : ℚ)/100), (1, 3333/100), (2, 3333/100)].map Prod.snd).sum ≠ 100) := by
  constructor
  · simp only [computeSplits, List.length_cons, List.length_nil]
    norm_num [round2_concrete_100_3]
  · simp only [List.map_cons, List.map_nil, List.sum_cons, List.sum_nil]
    norm_num

/-- C1 amended: under the Equal policy the code gives every participant the
identically rounded `round2(amount/n)` (within one minor unit of `amount/n`),
with no residual redistribution: the shares sum to `n * round2(amount/n)`,
which need not equal the amount. -/
theorem equalSplit_amended (amount : ℚ) (members : List UserId) (hpos : 0 < amount)
    (hne : members ≠ []) :
    computeSplits SplitType.Equal amount members none =
      Except.ok (members.map fun m => (m, round2 (amount / members.length))) ∧
    (∀ s ∈ members.map fun m => (m, round2 (amount / members.length)),
      |s.2 - amount / members.length| ≤ 1/100) ∧
    ((members.map fun m => (m, round2 (amount / members.length))).map Prod.snd).sum =
      members.length * round2 (amount / members.length) := by
  refine ⟨rfl, ?_, ?_⟩
  · intro s hs
    obtain ⟨m, hm, hsm⟩ := List.mem_map.mp hs
    rw [← hsm]
    have := round2_bound (amount / members.length)
    calc |round2 (amount / members.length) - amount / members.length| ≤ 1/200 := this
      _ ≤ 1/100 := by norm_num
  · rw [List.map_map]
    have hconst : (Prod.snd ∘ fun m : UserId => (m, round2 (amount / members.length)))
        = fun _ => round2 (amount / members.length) := rfl
    rw [hconst, List.map_const']
    rw [List.sum_replicate, nsmul_eq_mul]

/-- Witness for the amended C1 theorem: 100.00 split among three members. -/
theorem equalSplit_amended_witness :
    (0 : ℚ) < 100 ∧ ([0, 1, 2] : List UserId) ≠ [] ∧
    (computeSplits SplitType.Equal 100 [0, 1, 2] none =
      Except.ok (([0, 1, 2] : List UserId).map fun m =>
        (m, round2 (100 / (([0, 1, 2] : List UserId).length : ℚ)))) ∧
    (∀ s ∈ ([0, 1, 2] : List UserId).map fun m =>
        (m, round2 (100 / (([0, 1, 2] : List UserId).length : ℚ))),
      |s.2 - 100 / (([0, 1, 2] : List UserId).length : ℚ)| ≤ 1/100) ∧
    ((([0, 1, 2] : List UserId).map fun m =>
        (m, round2 (100 / (([0, 1, 2] : List UserId).length : ℚ)))).map Prod.snd).sum =
      (([0, 1, 2] : List UserId).length : ℚ) * round2 (100 / (([0, 1, 2] : List UserId).length : ℚ))) :=
  ⟨by decide, by decide, equalSplit_amended 100 [0, 1, 2] (by decide) (by decide)⟩

/-- Counterexample to C5 as stated: with amount 10.00 and a single custom split
of 10.01 the mismatch is 0.01 ≠ 0, yet `createSplitExpense` accepts it — the
validation tolerates any discrepancy up to 0.01. -/
theorem customAmount_tolerance_counterexample :
    computeSplits SplitType.Amount 10 [0] (some [⟨0, 1001/100, none⟩]) =
      Except.ok [(0, 1001/100)] ∧ ((1001 : ℚ)/100 - 10 ≠ 0) := by
  constructor
  · simp only [computeSplits, List.map_cons, List.map_nil, List.sum_cons, List.sum_nil]
    have h1 : ¬ ((1 : ℚ)/100 < |(1001 : ℚ)/100 + 0 - 10|) := by
      rw [show (1001 : ℚ)/100 + 0 - 10 = 1/100 by norm_num,
        abs_of_pos (by norm_num : (0 : ℚ) < 1/100)]
      norm_num
    have h2 : ¬ (0 < (([⟨0, 1001/100, none⟩] : List CustomSplit).filter fun c =>
        !(([0] : List UserId).contains c.userId)).length) := by
      simp
    rw [if_neg h1, if_neg h2]
  · norm_num

/-- C5 amended: the Amount-policy validation rejects with the sum-mismatch
error exactly when `|sum(customAmounts) - amount| > 0.01`, and the
Percentage-policy validation rejects with the percentage-mismatch error exactly
when `|sum(percentages) - 100| > 0.01` — a 0.01 tolerance, not zero
tolerance. -/
theorem split_validation_tolerance (amount : ℚ) (members : List UserId)
    (customs : List CustomSplit) :
    (computeSplits SplitType.Amount amount members (some customs) =
        Except.error SplitError.customSumMismatch ↔
      1/100 < |(customs.map CustomSplit.amount).sum - amount|) ∧
    (computeSplits SplitType.Percentage amount members (some customs) =
        Except.error SplitError.percentageSumMismatch ↔
      1/100 < |(customs.map fun c => c.percentage.getD 0).sum - 100|) := by
  constructor
  · constructor
    · intro h
      by_contra hc
      simp only [computeSplits] at h
      rw [if_neg hc] at h
      by_cases h2 : 0 < (customs.filter fun c => !(members.contains c.userId)).length
      · rw [if_pos h2] at h
        simp at h
      · rw [if_neg h2] at h
        simp at h
    · intro h
      simp only [computeSplits]
      rw [if_pos h]
  · constructor
    · intro h
      by_contra hc
      simp only [computeSplits] at h
      rw [if_neg hc] at h
      by_cases h2 : 0 < (customs.filter fun c => !(members.contains c.userId)).length
      · rw [if_pos h2] at h
        simp at h
      · rw [if_neg h2] at h
        simp at h
    · intro h
      simp only [computeSplits]
      rw [if_pos h]

theorem round2_concrete_half_cent : round2 ((1 : ℚ)/100 * 50 / 100) = 1/100 := by
  rw [round2, show ((1 : ℚ)/100 * 50 / 100) * 100 = 1/2 by norm_num,
    jsRound_eq_of (z := 1) (by norm_num) (by norm_num)]
  norm_num

/-- Counterexample to C6 as stated: splitting 0.01 as 50% / 50% (percentages
sum to exactly 100) rounds each share up to 0.01, so the shares sum to
0.02 ≠ 0.01 — no residual redistribution happens. -/
theorem percentage_sum_counterexample :
    computeSplits SplitType.Percentage (1/100) [0, 1]
        (some [⟨0, 0, some 50⟩, ⟨1, 0, some 50⟩]) =
      Except.ok [(0, 1/100), (1, 1/100)] ∧
    ((50 : ℚ) + (50 + 0) = 100) ∧ ((1 : ℚ)/100 + (1/100 + 0) ≠ 1/100) := by
  refine ⟨?_, by norm_num, by norm_num⟩
  simp only [computeSplits, List.map_cons, List.map_nil, List.sum_cons, List.sum_nil,
    Option.getD_some]
  have h1 : ¬ ((1 : ℚ)/100 < |(50 : ℚ) + (50 + 0) - 100|) := by
    rw [show (50 : ℚ) + (50 + 0) - 100 = 0 by norm_num, abs_zero]
    norm_num
  have h2 : ¬ (0 < (([⟨0, 0, some 50⟩, ⟨1, 0, some 50⟩] : List CustomSplit).filter fun c =>
      !(([0, 1] : List UserId).contains c.userId)).length) := by
    simp
  rw [if_neg h1, if_neg h2, round2_concrete_half_cent]

/-- C6 amended: when the percentages sum to exactly 100 and every listed user
is a group member, the Percentage policy succeeds and returns, for each entry,
`round2(amount * percentage / 100)` — rounded shares with no residual
redistribution, so the share total is the sum of the rounded values, not
necessarily the amount. -/
theorem percentageSplit_amended (amount : ℚ) (members : List UserId)
    (customs : List CustomSplit)
    (hsum : (customs.map fun c => c.percentage.getD 0).sum = 100)
    (hmem : ∀ c ∈ customs, c.userId ∈ members) :
    computeSplits SplitType.Percentage amount members (some customs) =
      Except.ok (customs.map fun c => (c.userId, round2 (amount * c.percentage.getD 0 / 100))) := by
  have hf : (customs.filter fun c => !(members.contains c.userId)) = [] := by
    rw [List.filter_eq_nil_iff]
    intro c hc
    simp [hmem c hc]
  simp only [computeSplits]
  rw [if_neg (by rw [hsum]; norm_num), if_neg (by rw [hf]; simp)]

/-- Witness for the amended C6 theorem: one participant holding 100%. -/
theorem percentageSplit_amended_witness :
    ((([⟨0, 0, some 100⟩] : List CustomSplit).map fun c => c.percentage.getD 0).sum = 100) ∧
    (∀ c ∈ ([⟨0, 0, some 100⟩] : List CustomSplit), c.userId ∈ [0, 1]) ∧
    computeSplits SplitType.Percentage 55 [0, 1] (some [⟨0, 0, some 100⟩]) =
      Except.ok (([⟨0, 0, some 100⟩] : List CustomSplit).map fun c =>
        (c.userId, round2 (55 * c.percentage.getD 0 / 100))) :=
  ⟨by simp, by decide,
    percentageSplit_amended 55 [0, 1] [⟨0, 0, some 100⟩] (by simp) (by decide)⟩

theorem createSplitExpense_ok_inv {payer : UserId} {g : Nat} {amount : ℚ}
    {members : List UserId} {st : SplitType} {cs : Option (List CustomSplit)}
    {eid bid : Nat} {exp : SplitExpense} {shares : List Share}
    (hok : createSplitExpense payer g amount members st cs eid bid =
      Except.ok (exp, shares)) :
    ∃ splits, computeSplits st amount members cs = Except.ok splits ∧
      exp = { id := eid, groupId := g, paidById := payer, amount := amount } ∧
      shares = mkShares eid payer bid splits := by
  rw [createSplitExpense] at hok
  cases hc : computeSplits st amount members cs with
  | error e =>
      rw [hc] at hok
      exact absurd hok (by simp [Except.map])
  | ok splits =>
      rw [hc] at hok
      simp only [Except.map, Except.ok.injEq, Prod.mk.injEq] at hok
      exact ⟨splits, rfl, hok.1.symm, hok.2.symm⟩

theorem mkShares_amounts (expId : Nat) (payer : UserId) (baseId : Nat)
    (splits : List (UserId × ℚ)) :
    (mkShares expId payer baseId splits).map Share.amount = splits.map Prod.snd := by
  rw [mkShares, List.map_map]
  rw [show (Share.amount ∘ fun p : Nat × (UserId × ℚ) => ({ id := baseId + p.1, splitExpenseId := expId, userId := p.2.1, amount := p.2.2, isPaid := p.2.1 == payer, settledAt := none } : Share)) = Prod.snd ∘ Prod.snd from rfl]
  rw [← List.map_map, List.enum_map_snd]

theorem sum_map_const_snd (members : List UserId) (c : ℚ) :
    ((members.map fun m => (m, c)).map Prod.snd).sum = members.length * c := by
  rw [List.map_map,
    show (Prod.snd ∘ fun m : UserId => (m, c)) = fun _ => c from rfl,
    List.map_const', List.sum_replicate, nsmul_eq_mul]

theorem markPaidBySettlement_amounts (shares : List Share) (expId : Nat) (u : UserId)
    (amt : ℚ) (now : Time) :
    (markPaidBySettlement shares expId u amt now).map Share.amount =
      shares.map Share.amount := by
  rw [markPaidBySettlement, List.map_map]
  refine List.map_congr_left fun s _ => ?_
  by_cases h : (s.splitExpenseId == expId && s.userId == u &&
      decide (s.amount ≤ amt) && !s.isPaid) = true
  · simp only [Function.comp_apply, if_pos h]
  · simp only [Function.comp_apply, if_neg h]

theorem deleteReset_amounts (db : Db) (s : Settlement) (expId : Nat) :
    ((db.shares.map fun sh =>
        if deleteResetPred s expId sh then { sh with isPaid := false, settledAt := none }
        else sh).map Share.amount) = db.shares.map Share.amount := by
  rw [List.map_map]
  refine List.map_congr_left fun sh _ => ?_
  by_cases h : deleteResetPred s expId sh = true
  · simp only [Function.comp_apply, if_pos h]
  · simp only [Function.comp_apply, if_neg h]

theorem createSettlement_ok_shares {db : Db} {now : Time} {fromUser toUser : UserId}
    {amount : ℚ} {spe : Option Nat} {newId : Nat} {db2 : Db}
    (hok : createSettlement db now fromUser toUser amount spe newId = Except.ok db2) :
    db2.shares.map Share.amount = db.shares.map Share.amount := by
  simp only [createSettlement] at hok
  split at hok
  · exact absurd hok (by simp)
  · split at hok
    · exact absurd hok (by simp)
    · split at hok
      · exact absurd hok (by simp)
      · split at hok
        · obtain rfl := Except.ok.inj hok
          rfl
        · rename_i expId
          split at hok
          · exact absurd hok (by simp)
          · split at hok
            · split at hok
              · exact absurd hok (by simp)
              · obtain rfl := Except.ok.inj hok
                exact markPaidBySettlement_amounts db.shares expId fromUser amount now
            · obtain rfl := Except.ok.inj hok
              exact markPaidBySettlement_amounts db.shares expId fromUser amount now

theorem deleteSettlement_ok_shares {db : Db} {now : Time} {actor : UserId} {sid : Nat}
    {db2 : Db} (hok : deleteSettlement db now actor sid = Except.ok db2) :
    db2.shares.map Share.amount = db.shares.map Share.amount := by
  simp only [deleteSettlement] at hok
  split at hok
  · exact absurd hok (by simp)
  · rename_i s hs
    split at hok
    · exact absurd hok (by simp)
    · obtain rfl := Except.ok.inj hok
      cases hsp : s.splitExpenseId with
      | none => simp only [hsp]
      | some expId =>
          simp only [hsp]
          exact deleteReset_amounts db s expId

theorem updateSettlement_ok_shares {db : Db} {now : Time} {actor : UserId} {sid : Nat}
    {na : Option ℚ} {db2 : Db}
    (hok : updateSettlement db now actor sid na = Except.ok db2) :
    db2.shares = db.shares := by
  simp only [updateSettlement] at hok
  split at hok
  · exact absurd hok (by simp)
  · split at hok
    · exact absurd hok (by simp)
    · obtain rfl := Except.ok.inj hok
      rfl

theorem markExpenseSplitsPaid_ok_shares {db : Db} {now : Time} {actor : UserId}
    {ids : List Nat} {db2 : Db}
    (hok : markExpenseSplitsPaid db now actor ids = Except.ok db2) :
    db2.shares.map Share.amount = db.shares.map Share.amount := by
  simp only [markExpenseSplitsPaid] at hok
  split at hok
  · exact absurd hok (by simp)
  · obtain rfl := Except.ok.inj hok
    rw [List.map_map]
    refine List.map_congr_left fun s _ => ?_
    by_cases h : ids.contains s.id = true
    · simp only [Function.comp_apply, if_pos h]
    · simp only [Function.comp_apply, if_neg h]

theorem markExpenseSplitUnpaid_ok_shares {db : Db} {actor : UserId} {sid : Nat} {db2 : Db}
    (hok : markExpenseSplitUnpaid db actor sid = Except.ok db2) :
    db2.shares.map Share.amount = db.shares.map Share.amount := by
  simp only [markExpenseSplitUnpaid] at hok
  split at hok
  · exact absurd hok (by simp)
  · obtain rfl := Except.ok.inj hok
    rw [List.map_map]
    refine List.map_congr_left fun s _ => ?_
    by_cases h : (s.id == sid) = true
    · simp only [Function.comp_apply, if_pos h]
    · simp only [Function.comp_apply, if_neg h]

theorem updateExpenseSplit_none_ok_shares {db : Db} {now : Time} {actor : UserId}
    {sid : Nat} {ip : Bool} {db2 : Db}
    (hok : updateExpenseSplit db now actor sid ip none = Except.ok db2) :
    db2.shares.map Share.amount = db.shares.map Share.amount := by
  simp only [updateExpenseSplit] at hok
  split at hok
  · exact absurd hok (by simp)
  · split at hok
    · exact absurd hok (by simp)
    · obtain rfl := Except.ok.inj hok
      rw [List.map_map]
      refine List.map_congr_left fun s _ => ?_
      by_cases h : (s.id == sid) = true
      · simp only [Function.comp_apply, if_pos h, Option.getD_none]
      · simp only [Function.comp_apply, if_neg h]

/-- Counterexample to C4 as stated: immediately after creating an Equal split
of 100.00 among three members — the very first reachable state with that
expense — the shares sum to 99.99 while the expense amount is 100. -/
theorem shareSum_invariant_counterexample :
    (createSplitExpense 0 7 100 [0, 1, 2] SplitType.Equal none 5 10).toOption.map
        (fun r => ((r.2.map Share.amount).sum, r.1.amount)) =
      some (9999/100, 100) ∧ ((9999 : ℚ)/100 ≠ 100) := by
  constructor
  · simp only [createSplitExpense, computeSplits, List.length_cons, List.length_nil,
      Except.map, Except.toOption, Option.map]
    rw [mkShares_amounts, sum_map_const_snd]
    norm_num [round2_concrete_100_3]
  · norm_num

/-- C4 amended: the exact share-sum invariant does not hold — at creation under
the Equal policy the shares sum to `n * round2(amount/n)`, which is within
`n/2` minor units of the expense amount but not equal in general; after
creation, settlement creation/deletion, mark-paid/unpaid and a split update
without an amount change never alter any share amount (the split-amount update
with a new amount is the one operation that rewrites a share amount, with no
re-validation). -/
theorem shareSum_amended (payer : UserId) (g : Nat) (amount : ℚ) (members : List UserId)
    (eid bid : Nat) (exp : SplitExpense) (shares : List Share) (hne : members ≠ [])
    (hok : createSplitExpense payer g amount members SplitType.Equal none eid bid =
      Except.ok (exp, shares)) :
    ((shares.map Share.amount).sum = members.length * round2 (amount / members.length) ∧
      |(shares.map Share.amount).sum - exp.amount| ≤ members.length * (1/200)) ∧
    (∀ db now fu tu amt spe nid db2,
      createSettlement db now fu tu amt spe nid = Except.ok db2 →
      db2.shares.map Share.amount = db.shares.map Share.amount) ∧
    (∀ db now actor sid db2, deleteSettlement db now actor sid = Except.ok db2 →
      db2.shares.map Share.amount = db.shares.map Share.amount) ∧
    (∀ db now actor sid na db2, updateSettlement db now actor sid na = Except.ok db2 →
      db2.shares = db.shares) ∧
    (∀ db now actor ids db2, markExpenseSplitsPaid db now actor ids = Except.ok db2 →
      db2.shares.map Share.amount = db.shares.map Share.amount) ∧
    (∀ db actor sid db2, markExpenseSplitUnpaid db actor sid = Except.ok db2 →
      db2.shares.map Share.amount = db.shares.map Share.amount) ∧
    (∀ db now actor sid ip db2, updateExpenseSplit db now actor sid ip none = Except.ok db2 →
      db2.shares.map Share.amount = db.shares.map Share.amount) := by
  refine ⟨?_, fun db now fu tu amt spe nid db2 h => createSettlement_ok_shares h,
    fun db now actor sid db2 h => deleteSettlement_ok_shares h,
    fun db now actor sid na db2 h => updateSettlement_ok_shares h,
    fun db now actor ids db2 h => markExpenseSplitsPaid_ok_shares h,
    fun db actor sid db2 h => markExpenseSplitUnpaid_ok_shares h,
    fun db now actor sid ip db2 h => updateExpenseSplit_none_ok_shares h⟩
  obtain ⟨splits, hc, hexp, hsh⟩ := createSplitExpense_ok_inv hok
  simp only [computeSplits] at hc
  have hsplits : splits = members.map fun m => (m, round2 (amount / members.length)) :=
    (Except.ok.inj hc).symm
  have hsum : (shares.map Share.amount).sum
      = members.length * round2 (amount / members.length) := by
    rw [hsh, mkShares_amounts, hsplits, sum_map_const_snd]
  refine ⟨hsum, ?_⟩
  have hlen : (0 : ℚ) < members.length := by
    have := List.length_pos.mpr hne
    exact_mod_cast this
  have hq : (members.length : ℚ) * (amount / members.length) = amount := by
    field_simp
  have hb := round2_bound (amount / members.length)
  have hexpa : exp.amount = amount := by rw [hexp]
  rw [hsum, hexpa]
  calc |(members.length : ℚ) * round2 (amount / members.length) - amount|
      = |(members.length : ℚ)| * |round2 (amount / members.length) - amount / members.length| := by
        rw [← abs_mul]
        congr 1
        rw [mul_sub, hq]
    _ ≤ (members.length : ℚ) * (1/200) := by
        rw [abs_of_pos hlen]
        exact mul_le_mul_of_nonneg_left hb (le_of_lt hlen)

theorem createSplitExpense_concrete_equal :
    createSplitExpense 0 7 100 [0, 1, 2] SplitType.Equal none 5 10 =
      Except.ok ({ id := 5, groupId := 7, paidById := 0, amount := 100 },
        [{ id := 10, splitExpenseId := 5, userId := 0, amount := 3333/100, isPaid := true, settledAt := none },
         { id := 11, splitExpenseId := 5, userId := 1, amount := 3333/100, isPaid := false, settledAt := none },
         { id := 12, splitExpenseId := 5, userId := 2, amount := 3333/100, isPaid := false, settledAt := none }]) := by
  simp only [createSplitExpense, computeSplits, List.length_cons, List.length_nil, Except.map]
  norm_num [mkShares, List.enum, List.enumFrom, round2_concrete_100_3]

/-- Witness for the amended C4 theorem: the Equal 100.00 / 3 creation. -/
theorem shareSum_amended_witness :
    (([({ id := 10, splitExpenseId := 5, userId := 0, amount := 3333/100, isPaid := true, settledAt := none } : Share),
       { id := 11, splitExpenseId := 5, userId := 1, amount := 3333/100, isPaid := false, settledAt := none },
       { id := 12, splitExpenseId := 5, userId := 2, amount := 3333/100, isPaid := false, settledAt := none }].map Share.amount).sum =
        (([0, 1, 2] : List UserId).length : ℚ) *
          round2 (100 / (([0, 1, 2] : List UserId).length : ℚ)) ∧
      |([({ id := 10, splitExpenseId := 5, userId := 0, amount := 3333/100, isPaid := true, settledAt := none } : Share),
         { id := 11, splitExpenseId := 5, userId := 1, amount := 3333/100, isPaid := false, settledAt := none },
         { id := 12, splitExpenseId := 5, userId := 2, amount := 3333/100, isPaid := false, settledAt := none }].map Share.amount).sum -
          ({ id := 5, groupId := 7, paidById := 0, amount := 100 } : SplitExpense).amount| ≤
        (([0, 1, 2] : List UserId).length : ℚ) * (1/200)) ∧
    (∀ db now fu tu amt spe nid db2,
      createSettlement db now fu tu amt spe nid = Except.ok db2 →
      db2.shares.map Share.amount = db.shares.map Share.amount) ∧
    (∀ db now actor sid db2, deleteSettlement db now actor sid = Except.ok db2 →
      db2.shares.map Share.amount = db.shares.map Share.amount) ∧
    (∀ db now actor sid na db2, updateSettlement db now actor sid na = Except.ok db2 →
      db2.shares = db.shares) ∧
    (∀ db now actor ids db2, markExpenseSplitsPaid db now actor ids = Except.ok db2 →
      db2.shares.map Share.amount = db.shares.map Share.amount) ∧
    (∀ db actor sid db2, markExpenseSplitUnpaid db actor sid = Except.ok db2 →
      db2.shares.map Share.amount = db.shares.map Share.amount) ∧
    (∀ db now actor sid ip db2, updateExpenseSplit db now actor sid ip none = Except.ok db2 →
      db2.shares.map Share.amount = db.shares.map Share.amount) :=
  shareSum_amended 0 7 100 [0, 1, 2] 5 10
    { id := 5, groupId := 7, paidById := 0, amount := 100 }
    [{ id := 10, splitExpenseId := 5, userId := 0, amount := 3333/100, isPaid := true, settledAt := none },
     { id := 11, splitExpenseId := 5, userId := 1, amount := 3333/100, isPaid := false, settledAt := none },
     { id := 12, splitExpenseId := 5, userId := 2, amount := 3333/100, isPaid := false, settledAt := none }]
    (by decide) createSplitExpense_concrete_equal

/-- C10: under every split policy, `createSplitExpense` creates the payer's
own share (when the payer is among the split targets) already marked paid and
every other share unpaid: each created share has `isPaid = (userId == payer)`.
Consequently no unpaid share — hence no debt edge of a fresh expense — belongs
to the payer, so a fresh expense never yields a payer-to-payer edge. -/
theorem createSplitExpense_payer_marked_paid (payer : UserId) (g : Nat) (amount : ℚ)
    (members : List UserId) (st : SplitType) (cs : Option (List CustomSplit))
    (eid bid : Nat) (exp : SplitExpense) (shares : List Share)
    (hok : createSplitExpense payer g amount members st cs eid bid =
      Except.ok (exp, shares)) :
    exp.paidById = payer ∧
    (∀ sh ∈ shares, sh.isPaid = (sh.userId == payer)) ∧
    (∀ sh ∈ shares, sh.isPaid = false → sh.userId ≠ payer) := by
  obtain ⟨splits, hc, hexp, hsh⟩ := createSplitExpense_ok_inv hok
  have hall : ∀ sh ∈ shares, sh.isPaid = (sh.userId == payer) := by
    intro sh hm
    rw [hsh, mkShares] at hm
    obtain ⟨p, hp, hpe⟩ := List.mem_map.mp hm
    rw [← hpe]
  refine ⟨by rw [hexp], hall, fun sh hm hfalse heq => ?_⟩
  have h1 := hall sh hm
  rw [hfalse, heq] at h1
  simp at h1

/-- Witness for C10: an Amount split of 10.00 paid by user 0 with user 1 owing
the whole amount. -/
theorem createSplitExpense_payer_marked_paid_witness :
    ({ id := 5, groupId := 7, paidById := 0, amount := 10 } : SplitExpense).paidById = 0 ∧
    (∀ sh ∈ [({ id := 20, splitExpenseId := 5, userId := 1, amount := 10, isPaid := false, settledAt := none } : Share)],
      sh.isPaid = (sh.userId == 0)) ∧
    (∀ sh ∈ [({ id := 20, splitExpenseId := 5, userId := 1, amount := 10, isPaid := false, settledAt := none } : Share)],
      sh.isPaid = false → sh.userId ≠ 0) := by
  have hok : createSplitExpense 0 7 10 [0, 1] SplitType.Amount (some [⟨1, 10, none⟩]) 5 20 =
      Except.ok ({ id := 5, groupId := 7, paidById := 0, amount := 10 },
        [{ id := 20, splitExpenseId := 5, userId := 1, amount := 10, isPaid := false, settledAt := none }]) := by
    simp only [createSplitExpense, computeSplits, List.map_cons, List.map_nil,
      List.sum_cons, List.sum_nil, Except.map]
    have h1 : ¬ ((1 : ℚ)/100 < |(10 : ℚ) + 0 - 10|) := by
      rw [show (10 : ℚ) + 0 - 10 = 0 by norm_num, abs_zero]
      norm_num
    have h2 : ¬ (0 < (([⟨1, 10, none⟩] : List CustomSplit).filter fun c =>
        !(([0, 1] : List UserId).contains c.userId)).length) := by
      simp
    rw [if_neg h1, if_neg h2]
    norm_num [mkShares, List.enum, List.enumFrom]
  exact createSplitExpense_payer_marked_paid 0 7 10 [0, 1] SplitType.Amount
    (some [⟨1, 10, none⟩]) 5 20 _ _ hok

/-- C7 amended: update and delete of a settlement are only reachable by the
creator (anyone else gets NotFound), and both fail with Expired exactly when
`now - settledAt` strictly exceeds the 24h window — an attempt at exactly
`settledAt + window` is still permitted. On any error the operation returns no
new state, leaving settlement and shares unchanged. -/
theorem settlement_grace_window (db : Db) (now : Time) (actor : UserId) (sid : Nat)
    (newAmount : Option ℚ) :
    (db.settlements.find? (fun s => s.id == sid && s.fromUserId == actor) = none →
      updateSettlement db now actor sid newAmount = Except.error ApiError.notFound ∧
      deleteSettlement db now actor sid = Except.error ApiError.notFound) ∧
    (∀ s, db.settlements.find? (fun s => s.id == sid && s.fromUserId == actor) = some s →
      ((updateSettlement db now actor sid newAmount = Except.error ApiError.expired ↔
        GRACE_WINDOW < now - s.settledAt) ∧
       (deleteSettlement db now actor sid = Except.error ApiError.expired ↔
        GRACE_WINDOW < now - s.settledAt))) := by
  constructor
  · intro h
    rw [updateSettlement, h, deleteSettlement, h]
    exact ⟨rfl, rfl⟩
  · intro s hs
    have hiff : s.settledAt < now - GRACE_WINDOW ↔ GRACE_WINDOW < now - s.settledAt := by
      constructor <;> intro h <;> linarith
    constructor
    · simp only [updateSettlement, hs]
      by_cases hw : s.settledAt < now - GRACE_WINDOW
      · rw [if_pos hw]
        simp only [true_iff]
        exact hiff.mp hw
      · rw [if_neg hw]
        constructor
        · intro h
          exact absurd h (by simp)
        · intro h
          exact absurd (hiff.mpr h) hw
    · simp only [deleteSettlement, hs]
      by_cases hw : s.settledAt < now - GRACE_WINDOW
      · rw [if_pos hw]
        simp only [true_iff]
        exact hiff.mp hw
      · rw [if_neg hw]
        constructor
        · intro h
          exact absurd h (by simp)
        · intro h
          exact absurd (hiff.mpr h) hw

/-- A one-settlement database used to exercise the grace-window boundary:
user 0 settled 5.00 to user 1 at time 0 (settlement id 1, not linked to an
expense). -/
def windowDb : Db :=
  { users := [0, 1], friendships := [(0, 1)], expenses := [], shares := [],
    settlements := [{ id := 1, fromUserId := 0, toUserId := 1, amount := 5, splitExpenseId := none, settledAt := 0 }] }

/-- Counterexample to C7 as stated: at `now = settledAt + GRACE_WINDOW`
exactly — "at or after settledAt + window", where the claim demands Expired —
the code still permits the update (the check is strict), returning success and
leaving the settlement unchanged. -/
theorem graceWindow_boundary_counterexample :
    updateSettlement windowDb 86400000 0 1 none = Except.ok windowDb ∧
    (0 : Time) + GRACE_WINDOW ≤ 86400000 := by
  constructor
  · rfl
  · decide

/-- Witness for the amended C7 theorem: one millisecond past the window the
update fails with Expired. -/
theorem settlement_grace_window_witness :
    updateSettlement windowDb 86400001 0 1 none = Except.error ApiError.expired :=
  ((settlement_grace_window windowDb 86400001 0 1 none).2
    { id := 1, fromUserId := 0, toUserId := 1, amount := 5,
      splitExpenseId := none, settledAt := 0 } (by decide)).1.mpr (by decide)

deriving instance DecidableEq for Except

/-- C8: a successful delete of an expense-linked settlement resets exactly the
timestamp-matched shares of the settlement's creator on the linked expense
(`isPaid := false`, `settledAt := none`), leaves every other share untouched,
removes the settlement row, and touches no other table. -/
theorem deleteSettlement_resets_exactly (db : Db) (now : Time) (actor : UserId) (sid : Nat)
    (s : Settlement) (expId : Nat) (db2 : Db)
    (hfind : db.settlements.find? (fun t => t.id == sid && t.fromUserId == actor) = some s)
    (hlink : s.splitExpenseId = some expId)
    (hok : deleteSettlement db now actor sid = Except.ok db2) :
    db2.shares.length = db.shares.length ∧
    (∀ i, ∀ hi : i < db.shares.length,
      (deleteResetPred s expId db.shares[i] = true →
        db2.shares[i]? = some { db.shares[i] with isPaid := false, settledAt := none }) ∧
      (deleteResetPred s expId db.shares[i] = false →
        db2.shares[i]? = some db.shares[i])) ∧
    db2.expenses = db.expenses ∧ db2.users = db.users ∧ db2.friendships = db.friendships ∧
    db2.settlements = db.settlements.filter fun t => !(t.id == sid) := by
  simp only [deleteSettlement] at hok
  split at hok
  · rename_i heq
    rw [hfind] at heq
    cases heq
  · rename_i s2 heq
    rw [hfind] at heq
    injection heq with heq2
    subst heq2
    split at hok
    · exact absurd hok (by simp)
    · obtain rfl := Except.ok.inj hok
      refine ⟨by simp [hlink], ?_, rfl, rfl, rfl, rfl⟩
      intro i hi
      constructor
      · intro hp
        simp only [hlink, List.getElem?_map, List.getElem?_eq_getElem hi, Option.map_some',
          if_pos hp]
      · intro hp
        simp only [hlink, List.getElem?_map, List.getElem?_eq_getElem hi, Option.map_some']
        rw [if_neg (by simp [hp])]

/-- Database for the C8 witness: expense 10 paid by user 1; user 0's share and
user 2's share were both stamped at time 500; the settlement (id 3) was made
by user 0 and linked to expense 10 at time 500. -/
def deleteDb : Db :=
  { users := [0, 1, 2], friendships := [(0, 1)],
    expenses := [{ id := 10, groupId := 7, paidById := 1, amount := 12 }],
    shares := [{ id := 1, splitExpenseId := 10, userId := 0, amount := 5, isPaid := true, settledAt := some 500 },
               { id := 2, splitExpenseId := 10, userId := 2, amount := 7, isPaid := true, settledAt := some 500 }],
    settlements := [{ id := 3, fromUserId := 0, toUserId := 1, amount := 5, splitExpenseId := some 10, settledAt := 500 }] }

/-- The state after user 0 deletes settlement 3 at time 600: their own
timestamp-matched share is reset, user 2's share is untouched. -/
def deleteDbAfter : Db :=
  { users := [0, 1, 2], friendships := [(0, 1)],
    expenses := [{ id := 10, groupId := 7, paidById := 1, amount := 12 }],
    shares := [{ id := 1, splitExpenseId := 10, userId := 0, amount := 5, isPaid := false, settledAt := none },
               { id := 2, splitExpenseId := 10, userId := 2, amount := 7, isPaid := true, settledAt := some 500 }],
    settlements := [] }

/-- Witness for the C8 theorem at the concrete `deleteDb` state. -/
theorem deleteSettlement_resets_exactly_witness :
    deleteDbAfter.shares.length = deleteDb.shares.length ∧
    (∀ i, ∀ hi : i < deleteDb.shares.length,
      (deleteResetPred { id := 3, fromUserId := 0, toUserId := 1, amount := 5, splitExpenseId := some 10, settledAt := 500 } 10 deleteDb.shares[i] = true →
        deleteDbAfter.shares[i]? = some { deleteDb.shares[i] with isPaid := false, settledAt := none }) ∧
      (deleteResetPred { id := 3, fromUserId := 0, toUserId := 1, amount := 5, splitExpenseId := some 10, settledAt := 500 } 10 deleteDb.shares[i] = false →
        deleteDbAfter.shares[i]? = some deleteDb.shares[i])) ∧
    deleteDbAfter.expenses = deleteDb.expenses ∧ deleteDbAfter.users = deleteDb.users ∧
    deleteDbAfter.friendships = deleteDb.friendships ∧
    deleteDbAfter.settlements = deleteDb.settlements.filter fun t => !(t.id == 3) :=
  deleteSettlement_resets_exactly deleteDb 600 0 3
    { id := 3, fromUserId := 0, toUserId := 1, amount := 5, splitExpenseId := some 10, settledAt := 500 }
    10 deleteDbAfter (by decide) rfl (by decide)

/-- Database refuting C9: expense 10 was paid by user 1 and only user 2 holds
a share on it; user 0 (friends with user 1) has no share at all. -/
def noShareDb : Db :=
  { users := [0, 1, 2], friendships := [(0, 1)],
    expenses := [{ id := 10, groupId := 7, paidById := 1, amount := 50 }],
    shares := [{ id := 1, splitExpenseId := 10, userId := 2, amount := 25, isPaid := false, settledAt := none }],
    settlements := [] }

/-- Counterexample to C9 as stated: user 0 creates a settlement to user 1
linked to expense 10 although user 0 has no share on that expense — the claim
demands NotFound and no settlement, yet the code succeeds and stores the
settlement (the expense is found through the recipient being its payer, and
the missing user split skips the amount check entirely). -/
theorem createSettlement_noShare_counterexample :
    noShareDb.shares.find? (fun sh => sh.splitExpenseId == 10 && sh.userId == 0) = none ∧
    createSettlement noShareDb 1000 0 1 5 (some 10) 42 =
      Except.ok { noShareDb with settlements := [{ id := 42, fromUserId := 0, toUserId := 1, amount := 5, splitExpenseId := some 10, settledAt := 1000 }] } := by
  constructor
  · rfl
  · decide

/-- C9 amended: a linked `createSettlement` (recipient valid, not self,
friends) fails NotFound only when neither party paid or holds a split on the
expense; it fails InvalidAmount only when the settling user's own split exists,
is unpaid, and is strictly smaller than the settlement amount; in every other
case — including when the settling user has no split at all, or an
already-paid one — the settlement is created and the covered unpaid splits are
marked paid. -/
theorem createSettlement_linked_amended (db : Db) (now : Time) (fromUser toUser : UserId)
    (amount : ℚ) (expId newId : Nat)
    (hto : db.users.contains toUser = true)
    (hne : (toUser == fromUser) = false)
    (hfr : areFriends db fromUser toUser = true) :
    (db.expenses.find? (expenseAccessPred db fromUser toUser expId) = none →
      createSettlement db now fromUser toUser amount (some expId) newId =
        Except.error ApiError.notFound) ∧
    (∀ ex, db.expenses.find? (expenseAccessPred db fromUser toUser expId) = some ex →
      (∀ us, db.shares.find? (fun sh => sh.splitExpenseId == expId && sh.userId == fromUser) = some us →
        ((us.isPaid = false ∧ us.amount < amount) →
          createSettlement db now fromUser toUser amount (some expId) newId =
            Except.error ApiError.invalidAmount) ∧
        (¬(us.isPaid = false ∧ us.amount < amount) →
          createSettlement db now fromUser toUser amount (some expId) newId =
            Except.ok { db with
              settlements := db.settlements ++ [{ id := newId, fromUserId := fromUser, toUserId := toUser, amount := amount, splitExpenseId := some expId, settledAt := now }],
              shares := markPaidBySettlement db.shares expId fromUser amount now })) ∧
      (db.shares.find? (fun sh => sh.splitExpenseId == expId && sh.userId == fromUser) = none →
        createSettlement db now fromUser toUser amount (some expId) newId =
          Except.ok { db with
            settlements := db.settlements ++ [{ id := newId, fromUserId := fromUser, toUserId := toUser, amount := amount, splitExpenseId := some expId, settledAt := now }],
            shares := markPaidBySettlement db.shares expId fromUser amount now })) := by
  refine ⟨fun hexp => ?_, fun ex hexp => ⟨fun us hus => ⟨fun hcond => ?_, fun hcond => ?_⟩,
    fun hus => ?_⟩⟩
  · simp [createSettlement, hto, hne, hfr, hexp]
  · simp only [createSettlement, hto, hne, hfr, Bool.not_true, Bool.false_eq_true, if_false,
      hexp, hus]
    rw [if_pos (by simp [hcond.1, hcond.2])]
  · simp only [createSettlement, hto, hne, hfr, Bool.not_true, Bool.false_eq_true, if_false,
      hexp, hus]
    rw [if_neg (by
      simp only [Bool.and_eq_true, Bool.not_eq_true', decide_eq_true_eq]
      exact fun h => hcond h)]
  · simp only [createSettlement, hto, hne, hfr, Bool.not_true, Bool.false_eq_true, if_false,
      hexp, hus]

/-- Database for the C9 witness: user 0 owes 5.00 on expense 10 paid by
user 1. -/
def witnessDb9 : Db :=
  { users := [0, 1], friendships := [(0, 1)],
    expenses := [{ id := 10, groupId := 7, paidById := 1, amount := 12 }],
    shares := [{ id := 1, splitExpenseId := 10, userId := 0, amount := 5, isPaid := false, settledAt := none }],
    settlements := [] }

/-- Witness for the amended C9 theorem: settling the full owed amount
succeeds and marks the split paid. -/
theorem createSettlement_linked_amended_witness :
    createSettlement witnessDb9 1000 0 1 5 (some 10) 42 =
      Except.ok { witnessDb9 with
        settlements := witnessDb9.settlements ++ [{ id := 42, fromUserId := 0, toUserId := 1, amount := 5, splitExpenseId := some 10, settledAt := 1000 }],
        shares := markPaidBySettlement witnessDb9.shares 10 0 5 1000 } :=
  (((createSettlement_linked_amended witnessDb9 1000 0 1 5 10 42 (by decide) (by decide)
        (by decide)).2
      { id := 10, groupId := 7, paidById := 1, amount := 12 } (by decide)).1
    { id := 1, splitExpenseId := 10, userId := 0, amount := 5, isPaid := false, settledAt := none }
    (by decide)).2 (by decide)
